import Mathlib

/-!
Shallow embedding of the NEB-to-dimer transition-state search script
(ase-dp/neb2dimer_dpa2.py) and proofs about its orchestration logic:
argument parsing, the moving-atom mask builders of the DPDimer class,
the dimer run dispatch, the transition-state index search, the
displacement-vector derivation from the flanking NEB images, and the
main-mode index selector.

Conventions of the embedding:
- a per-atom 3-vector is a triple; rational components are used where the
  script only compares values (mask building, energy comparison), real
  components where the script takes Euclidean norms;
- Python list indexing (which wraps around for mildly negative indices and
  raises IndexError otherwise) is `pyIndex`, returning `Option`;
- an `Option` result models a value that may instead be a raised error.
-/

/-- A per-atom 3-vector with rational components (used where the script only
compares components for equality). -/
abbrev Q3 : Type := ℚ × ℚ × ℚ

/-- A per-atom 3-vector with real components (used where the script takes
Euclidean norms). -/
abbrev R3 : Type := ℝ × ℝ × ℝ

/-! ## Module-level configuration constants of the script -/

/-- `omp = 16`: the configured OpenMP thread count. -/
def omp : ℕ := 16

/-- `n_max = 8`: number of interior NEB images. -/
def n_max : ℕ := 8

/-- `step_before_TS = 1`: offset of the flanking image before the TS. -/
def step_before_TS : ℕ := 1

/-- `step_after_TS = 1`: offset of the flanking image after the TS. -/
def step_after_TS : ℕ := 1

/-- The value assigned to the `OMP_NUM_THREADS` environment variable at module
initialization: the script executes `os.environ[..] = "omp"`, a string
literal, not the numeric thread count. -/
def module_OMP_env : String := "omp"

/-- The value `DPDimer.set_calculator` assigns to `OMP_NUM_THREADS`:
the f-string of the numeric `omp` attribute. -/
def set_calculator_OMP_env (n : ℕ) : String := toString n

/-! ## Argument parsing (module level, lines 43-65) -/

/-- Outcome of the argument-parsing block at the top of the script. -/
inductive ParseOutcome : Type where
  | usage_exit (code : ℕ)
  | help_exit (code : ℕ)
  | traj_mode (file : String)
  | two_file_mode (init_file final_file : String) (fmt : Option String)
deriving DecidableEq, Repr

/-- The argument-parsing block: `argv` includes the program name at index 0.
Fewer than two entries prints the usage message and exits 1; exactly two is
either help (exit 0) or trajectory mode; otherwise the first two arguments
are the two structure files and, when there are exactly four entries, the
third argument is the format (else auto-detect).  Further arguments are
ignored. -/
def parse_args (argv : List String) : ParseOutcome :=
  if argv.length < 2 then .usage_exit 1
  else if argv.length = 2 then
    if argv.getD 1 "" = "-h" ∨ argv.getD 1 "" = "--help" then .help_exit 0
    else .traj_mode (argv.getD 1 "")
  else
    .two_file_mode (argv.getD 1 "") (argv.getD 2 "")
      (if argv.length = 4 then some (argv.getD 3 "") else none)

/-! ## DPDimer mask builders (lines 113-146) -/

/-- `DPDimer.set_d_mask_by_displacement`: the script computes the elementwise
boolean array `displacement_vector != np.zeros(3)` and then keeps only its
first column (`d_mask[:,0]`), so the returned mask records whether the FIRST
component of each displacement entry is non-zero. -/
def set_d_mask_by_displacement (v : List Q3) : List Bool :=
  let d_mask : List (Bool × Bool × Bool) :=
    v.map (fun p => (decide (p.1 ≠ 0), decide (p.2.1 ≠ 0), decide (p.2.2 ≠ 0)))
  d_mask.map (fun t => t.1)

/-- Follows the wording of the spec (for comparison with
`set_d_mask_by_displacement`): an atom is moving iff its full 3-component
displacement entry differs from the zero vector. -/
def spec_mask_by_displacement (v : List Q3) : List Bool :=
  v.map (fun p => decide (p ≠ ((0 : ℚ), (0 : ℚ), (0 : ℚ))))

/-- `DPDimer.set_d_mask_by_constraint`: a constraint is modelled by the index
list its `get_indices()` returns.  The mask starts all-`true`; when the
constraint list is non-empty ONLY ITS FIRST element is consulted and the
indices it fixes are set to `false`; an empty constraint list leaves the
all-`true` mask (the script prints a warning in that case). -/
def set_d_mask_by_constraint (natoms : ℕ) (constraints : List (List ℕ)) :
    List Bool :=
  match constraints with
  | [] => List.replicate natoms true
  | c :: _ => c.foldl (fun m ind => m.set ind false) (List.replicate natoms true)

/-- Whether `set_d_mask_by_constraint` takes its warning branch ("No
constraint found in init Atoms"). -/
def constraint_mask_warns (constraints : List (List ℕ)) : Bool :=
  constraints.isEmpty

/-- Follows the wording of the spec (for comparison with
`set_d_mask_by_constraint`): an atom is moving iff it is not covered by ANY
fixed-position constraint. -/
def spec_mask_by_constraint (natoms : ℕ) (constraints : List (List ℕ)) :
    List Bool :=
  (List.range natoms).map (fun i => constraints.all (fun c => !(c.contains i)))

/-- `DPDimer.set_d_mask_by_specified`: the mask starts all-`false` and the
supplied moving-atom indices are set to `true`. -/
def set_d_mask_by_specified (natoms : ℕ) (moving_atoms_ind : List ℕ) :
    List Bool :=
  moving_atoms_ind.foldl (fun m ind => m.set ind true)
    (List.replicate natoms false)

/-! ## DPDimer.run dispatch (lines 148-178) -/

/-- Python truthiness of an optional list argument: `None` and the empty list
are both falsy. -/
def pyTruthyList (l : Option (List ℕ)) : Bool :=
  match l with
  | none => false
  | some xs => !xs.isEmpty

/-- What `DPDimer.run` does before entering the dimer translation loop:
either it constructs the dimer with some mask (and, in displacement mode,
displaces along the seed vector), or it raises a `ValueError` first. -/
inductive RunOutcome : Type where
  | runs (mask : List Bool) (seed : Option (List Q3))
  | config_error (msg : String)
deriving DecidableEq, Repr

/-- The dispatch of `DPDimer.run` on `init_eigenmode_method`:
`"displacement"` picks the specified-index mask when `moving_atoms_ind` is
truthy (non-`None` and non-empty), else the by-displacement mask, and
displaces along the seed vector; `"gauss"` takes the by-constraint mask and
uses no seed vector; anything else raises a `ValueError` before any dimer
iteration. -/
def DPDimer_run (method : String) (v : List Q3) (natoms : ℕ)
    (constraints : List (List ℕ)) (moving_atoms_ind : Option (List ℕ)) :
    RunOutcome :=
  if method = "displacement" then
    let d_mask :=
      if pyTruthyList moving_atoms_ind then
        set_d_mask_by_specified natoms (moving_atoms_ind.getD [])
      else set_d_mask_by_displacement v
    .runs d_mask (some v)
  else if method = "gauss" then
    .runs (set_d_mask_by_constraint natoms constraints) none
  else .config_error "init_eigenmode_method must be displacement or gauss"

/-! ## Python list indexing and the flanking-image selection (lines 239-247) -/

/-- Python list indexing semantics: a non-negative index `i` succeeds iff
`i < len`; a negative index `i` wraps to `len + i` when `0 ≤ len + i`, and
raises `IndexError` (here: `none`) otherwise. -/
def pyIndex {α : Type} (l : List α) (i : ℤ) : Option α :=
  if i < 0 then
    if (l.length : ℤ) + i < 0 then none
    else l.get? ((l.length : ℤ) + i).toNat
  else l.get? i.toNat

/-- The module-level selection of the two images flanking the transition
state: `img_before = images[ts - b]` and `img_after = images[ts + a]`, with
Python indexing semantics; `none` models the `IndexError` abort. -/
def neb2dimer_flank {α : Type} (images : List α) (ts b a : ℕ) :
    Option (α × α) :=
  match pyIndex images ((ts : ℤ) - (b : ℤ)), pyIndex images ((ts : ℤ) + (a : ℤ)) with
  | some bef, some aft => some (bef, aft)
  | _, _ => none

/-! ## Transition-state index search (lines 226-233) -/

/-- `neb_raw_barrier = max([image.get_potential_energy() for image in images])`:
the maximum of the image energies; `none` models the `ValueError` Python
`max` raises on an empty list. -/
def neb_raw_barrier (es : List ℚ) : Option ℚ := es.max?

/-- `TS_info = [(ind, image) for ind, image in enumerate(images) if
image.get_potential_energy() == neb_raw_barrier][0]`: the first enumerated
pair whose energy equals the maximum.  An image is represented by its
energy, so the pair is (index, energy). -/
def TS_info (es : List ℚ) : Option (ℕ × ℚ) :=
  match neb_raw_barrier es with
  | none => none
  | some m => ((es.enum.filter (fun p => p.2 == m)).head?)

/-! ## Euclidean norms (np.linalg.norm) over real 3-vectors -/

/-- Squared Euclidean norm of a 3-vector. -/
noncomputable def vnormSq (p : R3) : ℝ := p.1 ^ 2 + p.2.1 ^ 2 + p.2.2 ^ 2

/-- Euclidean norm of a 3-vector (one row of `np.linalg.norm(.., axis=1)`). -/
noncomputable def vnorm (p : R3) : ℝ := Real.sqrt (vnormSq p)

/-- Squared Frobenius norm of an (N,3) array of atomic 3-vectors. -/
noncomputable def frobNormSq (v : List R3) : ℝ := (v.map vnormSq).sum

/-- `np.linalg.norm` of an (N,3) array: the Frobenius norm, the square root
of the sum of the squares of all entries. -/
noncomputable def frobNorm (v : List R3) : ℝ := Real.sqrt (frobNormSq v)

/-- Componentwise division of a 3-vector by a scalar. -/
noncomputable def pdiv (p : R3) (c : ℝ) : R3 := (p.1 / c, p.2.1 / c, p.2.2 / c)

/-- Componentwise difference of two 3-vectors. -/
noncomputable def psub (p q : R3) : R3 := (p.1 - q.1, p.2.1 - q.2.1, p.2.2 - q.2.2)

/-! ## Displacement-vector derivation (lines 239-250) -/

/-- `norm_vector = 0.01`: the target magnitude of the seed displacement
vector. -/
noncomputable def norm_vector : ℝ := 1 / 100

/-- `image_vector = img_before.positions - img_after.positions`. -/
noncomputable def image_vector (before after : List R3) : List R3 :=
  List.zipWith psub before after

/-- `modulo_norm = np.linalg.norm(image_vector) / norm_vector;
displacement_vector = image_vector / modulo_norm`. -/
noncomputable def displacement_vector (iv : List R3) : List R3 :=
  iv.map (fun p => pdiv p (frobNorm iv / norm_vector))

/-! ## Main-mode selector main4dis (lines 180-185) -/

/-- `norm_vector = np.linalg.norm(displacement_vector / len_vector, axis=1)`
inside `main4dis`: the list of per-atom Euclidean norms of the
whole-norm-scaled displacement field. -/
noncomputable def main4dis_norms (v : List R3) : List ℝ :=
  v.map (fun p => vnorm (pdiv p (frobNorm v)))

/-- `main_indices = [ind for ind, vec in enumerate(norm_vector) if vec > thr]`
inside `main4dis`, as the set of selected indices (real-number comparison,
so membership is a proposition rather than a computation). -/
noncomputable def main4dis (v : List R3) (thr : ℝ) : Set ℕ :=
  {i | ∃ x, (main4dis_norms v).get? i = some x ∧ thr < x}

/-! ## Helper lemmas -/

/-- Effect of folding `List.set` with a constant value over a list of
indices: positions listed get the value, other positions are unchanged. -/
theorem foldl_set_get? (c : List ℕ) (m : List Bool) (b : Bool) (i : ℕ) :
    (c.foldl (fun acc ind => acc.set ind b) m).get? i =
      if i ∈ c then (m.get? i).map (fun _ => b) else m.get? i := by
  induction c generalizing m with
  | nil => simp
  | cons ind c' ih =>
    rw [List.foldl_cons, ih]
    by_cases h2 : ind = i
    · subst h2
      by_cases h3 : ind < m.length
      · by_cases h1 : ind ∈ c' <;> simp [h1, h3, List.getElem?_set]
      · have hnone : m[ind]? = none := List.getElem?_eq_none (le_of_not_lt h3)
        by_cases h1 : ind ∈ c' <;> simp [h1, h3, List.getElem?_set, hnone]
    · have hne : ¬ i = ind := fun h => h2 h.symm
      by_cases h1 : i ∈ c' <;> simp [h1, h2, hne, List.getElem?_set]

/-! ## C1: mask by displacement -/

/-- C1: the by-displacement mask policy does NOT compare the full 3-vector
against zero: on the single-atom displacement field `[(0, 1, 0)]`, whose
entry is zero in the first component but non-zero in the second, the code
marks the atom as not moving (`[false]`), while the mask described by the
spec (full 3-vector compared against the zero vector) marks it moving. -/
theorem C1_mask_uses_first_component_only :
    set_d_mask_by_displacement [((0 : ℚ), 1, 0)] = [false] ∧
    spec_mask_by_displacement [((0 : ℚ), 1, 0)] = [true] ∧
    set_d_mask_by_displacement [((0 : ℚ), 1, 0)] ≠
      spec_mask_by_displacement [((0 : ℚ), 1, 0)] := by
  decide

/-! ## C3: argument parsing -/

/-- C3 counterexample: invoked with four file arguments (five `argv`
entries), the script does not fail with a usage error: it proceeds in
two-file mode, taking the first two arguments and ignoring the rest. -/
theorem C3_counterexample :
    parse_args ["prog", "a.cif", "b.cif", "c.cif", "d.cif"] =
      ParseOutcome.two_file_mode "a.cif" "b.cif" none := by
  decide

/-- C3 amended: the parser exits 1 with the usage message only when no file
argument is given; `-h`/`--help` exits 0; a single non-help argument selects
trajectory mode; with two or more file arguments the first two are used and
a third is taken as the format only when exactly three are given; further
arguments are ignored without any usage error. -/
theorem C3_parse_args_characterization (argv : List String) :
    (argv.length < 2 → parse_args argv = ParseOutcome.usage_exit 1) ∧
    (argv.length = 2 →
      (argv.getD 1 "" = "-h" ∨ argv.getD 1 "" = "--help") →
      parse_args argv = ParseOutcome.help_exit 0) ∧
    (argv.length = 2 → argv.getD 1 "" ≠ "-h" → argv.getD 1 "" ≠ "--help" →
      parse_args argv = ParseOutcome.traj_mode (argv.getD 1 "")) ∧
    (3 ≤ argv.length →
      parse_args argv = ParseOutcome.two_file_mode (argv.getD 1 "")
        (argv.getD 2 "")
        (if argv.length = 4 then some (argv.getD 3 "") else none)) := by
  refine ⟨fun h => ?_, fun h hh => ?_, fun h h1 h2 => ?_, fun h => ?_⟩
  · rw [parse_args, if_pos h]
  · rw [parse_args, if_neg (by omega), if_pos h, if_pos hh]
  · rw [parse_args, if_neg (by omega), if_pos h,
      if_neg (by rintro (h3 | h3) <;> [exact h1 h3; exact h2 h3])]
  · rw [parse_args, if_neg (by omega), if_neg (by omega)]

/-- C3 witness: the amended characterization applied to the concrete
invocation `["prog", "a", "b"]`. -/
theorem C3_parse_args_witness :
    3 ≤ (["prog", "a", "b"] : List String).length ∧
    parse_args ["prog", "a", "b"] = ParseOutcome.two_file_mode "a" "b"
      (if (["prog", "a", "b"] : List String).length = 4
        then some ((["prog", "a", "b"] : List String).getD 3 "") else none) :=
  ⟨by decide, (C3_parse_args_characterization ["prog", "a", "b"]).2.2.2 (by decide)⟩

/-! ## C4: mask by constraint -/

/-- C4 counterexample: with two constraints (the first fixing atom 0, the
second fixing atom 1, of 2 atoms), the code consults only the first
constraint and returns `[false, true]`, while the mask described by the spec
(every constraint counts) would be `[false, false]`. -/
theorem C4_counterexample :
    set_d_mask_by_constraint 2 [[0], [1]] = [false, true] ∧
    spec_mask_by_constraint 2 [[0], [1]] = [false, false] ∧
    set_d_mask_by_constraint 2 [[0], [1]] ≠
      spec_mask_by_constraint 2 [[0], [1]] := by
  decide

/-- C4 amended: an atom is marked moving iff it is not covered by the FIRST
fixed-position constraint attached to the Structure (further constraints are
ignored); with no constraint every atom is moving and the warning branch is
taken; for a 5-atom Structure with a single constraint fixing atom index 2
the mask is `[true, true, false, true, true]`. -/
theorem C4_mask_by_constraint_characterization (natoms : ℕ) (c : List ℕ)
    (rest : List (List ℕ)) (i : ℕ) (hi : i < natoms) :
    (set_d_mask_by_constraint natoms [] = List.replicate natoms true ∧
      constraint_mask_warns [] = true) ∧
    (set_d_mask_by_constraint natoms (c :: rest)).get? i =
      some (!c.contains i) ∧
    constraint_mask_warns (c :: rest) = false ∧
    set_d_mask_by_constraint 5 [[2]] = [true, true, false, true, true] := by
  refine ⟨⟨rfl, rfl⟩, ?_, rfl, by decide⟩
  rw [set_d_mask_by_constraint, foldl_set_get?]
  have hc : c.contains i = decide (i ∈ c) := by
    by_cases h : i ∈ c <;> simp [h]
  by_cases h : i ∈ c <;> simp [h, hc, hi]

/-- C4 witness: the amended characterization applied to a 3-atom Structure
with one constraint fixing atom 1, evaluated at atom 0. -/
theorem C4_mask_by_constraint_witness :
    (0 : ℕ) < 3 ∧
    ((set_d_mask_by_constraint 3 [] = List.replicate 3 true ∧
        constraint_mask_warns [] = true) ∧
      (set_d_mask_by_constraint 3 [[1]]).get? 0 = some (!([1].contains 0)) ∧
      constraint_mask_warns [[1]] = false ∧
      set_d_mask_by_constraint 5 [[2]] = [true, true, false, true, true]) :=
  ⟨by decide, C4_mask_by_constraint_characterization 3 [1] [] 0 (by decide)⟩

/-! ## C8: eigenmode-method dispatch in DPDimer.run -/

/-- C8: any eigenmode-method string other than `"displacement"` and
`"gauss"` makes `DPDimer.run` raise the `ValueError` before constructing the
dimer (so before any dimer iteration); the `"gauss"` method takes its mask
from the constraints alone — the outcome carries no seed vector and is
independent of the displacement vector and of the moving-atom list. -/
theorem C8_run_dispatch (method : String) (v v2 : List Q3) (natoms : ℕ)
    (cons : List (List ℕ)) (mov mov2 : Option (List ℕ))
    (h1 : method ≠ "displacement") (h2 : method ≠ "gauss") :
    DPDimer_run method v natoms cons mov =
      RunOutcome.config_error
        "init_eigenmode_method must be displacement or gauss" ∧
    DPDimer_run "gauss" v natoms cons mov =
      RunOutcome.runs (set_d_mask_by_constraint natoms cons) none ∧
    DPDimer_run "gauss" v natoms cons mov =
      DPDimer_run "gauss" v2 natoms cons mov2 := by
  refine ⟨?_, ?_, ?_⟩
  · rw [DPDimer_run, if_neg h1, if_neg h2]
  · rw [DPDimer_run, if_neg (by decide), if_pos rfl]
  · rw [DPDimer_run, if_neg (by decide), if_pos rfl,
      DPDimer_run, if_neg (by decide), if_pos rfl]

/-- C8 witness: the dispatch theorem applied to the unknown method string
`"lanczos"` and concrete remaining arguments. -/
theorem C8_run_dispatch_witness :
    (("lanczos" : String) ≠ "displacement" ∧ ("lanczos" : String) ≠ "gauss") ∧
    (DPDimer_run "lanczos" [((1 : ℚ), 0, 0)] 1 [[0]] none =
      RunOutcome.config_error
        "init_eigenmode_method must be displacement or gauss" ∧
    DPDimer_run "gauss" [((1 : ℚ), 0, 0)] 1 [[0]] none =
      RunOutcome.runs (set_d_mask_by_constraint 1 [[0]]) none ∧
    DPDimer_run "gauss" [((1 : ℚ), 0, 0)] 1 [[0]] none =
      DPDimer_run "gauss" [((2 : ℚ), 2, 2)] 1 [[0]] (some [0])) :=
  ⟨⟨by decide, by decide⟩,
    C8_run_dispatch "lanczos" [((1 : ℚ), 0, 0)] [((2 : ℚ), 2, 2)] 1 [[0]]
      none (some [0]) (by decide) (by decide)⟩

/-! ## C9: OMP_NUM_THREADS assignment -/

/-- C9 counterexample: the string literal the script assigns to
`OMP_NUM_THREADS` at module initialization is `"omp"`, which has three
characters, not four as the claim states. -/
theorem C9_counterexample : module_OMP_env.length ≠ 4 := by decide

/-- C9 amended: at module initialization the script assigns the literal
three-character string `"omp"` to `OMP_NUM_THREADS` rather than the
configured numeric thread count 16; only `DPDimer.set_calculator` later
assigns the actual numeric value `"16"`. -/
theorem C9_omp_env_assignment :
    module_OMP_env = "omp" ∧
    module_OMP_env.length = 3 ∧
    module_OMP_env ≠ set_calculator_OMP_env omp ∧
    set_calculator_OMP_env omp = "16" := by
  refine ⟨rfl, rfl, ?_, rfl⟩
  decide

/-! ## C10: empty moving-atom list in DPDimer.run -/

/-- C10: in displacement mode an empty explicit moving-atom list is falsy,
exactly like passing `None`: both fall back to the by-displacement mask
policy (no all-atoms-fixed mask is produced), and only a non-empty index
list activates the explicit-list policy. -/
theorem C10_empty_moving_list (v : List Q3) (natoms : ℕ)
    (cons : List (List ℕ)) (l : List ℕ) (hl : l ≠ []) :
    DPDimer_run "displacement" v natoms cons (some []) =
      DPDimer_run "displacement" v natoms cons none ∧
    DPDimer_run "displacement" v natoms cons (some []) =
      RunOutcome.runs (set_d_mask_by_displacement v) (some v) ∧
    DPDimer_run "displacement" v natoms cons (some l) =
      RunOutcome.runs (set_d_mask_by_specified natoms l) (some v) := by
  have htrue : pyTruthyList (some l) = true := by
    cases l with
    | nil => exact absurd rfl hl
    | cons x xs => rfl
  refine ⟨?_, ?_, ?_⟩
  · rw [DPDimer_run, if_pos rfl, DPDimer_run, if_pos rfl]
    simp [pyTruthyList]
  · rw [DPDimer_run, if_pos rfl]
    simp [pyTruthyList]
  · rw [DPDimer_run, if_pos rfl]
    simp [htrue]

/-- C10 witness: the theorem applied to a concrete one-atom displacement
field and the non-empty moving list `[0]`. -/
theorem C10_empty_moving_list_witness :
    ([0] : List ℕ) ≠ [] ∧
    (DPDimer_run "displacement" [((0 : ℚ), 1, 0)] 1 [] (some []) =
      DPDimer_run "displacement" [((0 : ℚ), 1, 0)] 1 [] none ∧
    DPDimer_run "displacement" [((0 : ℚ), 1, 0)] 1 [] (some []) =
      RunOutcome.runs (set_d_mask_by_displacement [((0 : ℚ), 1, 0)])
        (some [((0 : ℚ), 1, 0)]) ∧
    DPDimer_run "displacement" [((0 : ℚ), 1, 0)] 1 [] (some [0]) =
      RunOutcome.runs (set_d_mask_by_specified 1 [0])
        (some [((0 : ℚ), 1, 0)])) :=
  ⟨by decide, C10_empty_moving_list [((0 : ℚ), 1, 0)] 1 [] [0] (by decide)⟩

/-! ## C7: transition-state index search -/

/-- Characterization of `List.max?` on rationals: it returns exactly a
member that bounds every element. -/
theorem rat_max?_spec (es : List ℚ) (m : ℚ) :
    es.max? = some m ↔ m ∈ es ∧ ∀ b ∈ es, b ≤ m := by
  haveI : Std.Antisymm fun x1 x2 : ℚ => x1 ≤ x2 :=
    Std.Antisymm.mk (fun h h2 => le_antisymm h h2)
  exact List.max?_eq_some_iff le_refl max_choice (fun a b c => max_le_iff)

/-- The head of the enumerated sublist of entries equal to `m` is the first
index at which `m` occurs. -/
theorem head_filter_enumFrom (m : ℚ) (es : List ℚ) (k : ℕ) (hm : m ∈ es) :
    ∃ i, ((List.enumFrom k es).filter (fun p => p.2 == m)).head? =
        some (k + i, m) ∧
      es.get? i = some m ∧ ∀ j < i, es.get? j ≠ some m := by
  induction es generalizing k with
  | nil => cases hm
  | cons e t ih =>
    rw [List.enumFrom_cons]
    by_cases he : e = m
    · refine ⟨0, ?_, ?_, ?_⟩
      · subst he
        simp [List.filter_cons]
      · simp [he]
      · intro j hj
        exact absurd hj (Nat.not_lt_zero j)
    · have hm' : m ∈ t := by
        rcases List.mem_cons.mp hm with h | h
        · exact absurd h.symm he
        · exact h
      obtain ⟨i, hhead, hget, hfirst⟩ := ih (k + 1) hm'
      refine ⟨i + 1, ?_, ?_, ?_⟩
      · have harith : k + 1 + i = k + (i + 1) := by omega
        have hcond : ¬ (((k, e).2 == m) = true) := by simpa using he
        rw [List.filter_cons, if_neg hcond, hhead, harith]
      · simpa using hget
      · intro j hj
        cases j with
        | zero => simp [he]
        | succ j' =>
          intro hc
          exact hfirst j' (by omega) (by simpa using hc)

/-- C7: for a non-empty converged chain, `TS_info` returns the index of an
image whose potential energy equals the maximum over all images, and among
ties it is the first-occurring such index (no earlier image attains the
maximum). -/
theorem C7_TS_info_first_max (es : List ℚ) (h : es ≠ []) :
    ∃ i m, TS_info es = some (i, m) ∧
      neb_raw_barrier es = some m ∧
      es.get? i = some m ∧
      (∀ x ∈ es, x ≤ m) ∧
      ∀ j < i, es.get? j ≠ some m := by
  cases hmax : es.max? with
  | none => exact absurd (List.max?_eq_none_iff.mp hmax) h
  | some m =>
    have hspec := (rat_max?_spec es m).mp hmax
    obtain ⟨i, hhead, hget, hfirst⟩ := head_filter_enumFrom m es 0 hspec.1
    refine ⟨i, m, ?_, hmax, hget, hspec.2, hfirst⟩
    rw [TS_info]
    simp only [neb_raw_barrier, hmax]
    rw [List.enum]
    rw [hhead]
    simp

/-- C7 witness: the theorem applied to the energy chain `[1, 3, 3, 2]`,
where images 1 and 2 tie for the maximum and the returned index is 1. -/
theorem C7_TS_info_witness :
    (([1, 3, 3, 2] : List ℚ) ≠ [] ∧
      TS_info ([1, 3, 3, 2] : List ℚ) = some (1, 3)) ∧
    (∃ i m, TS_info ([1, 3, 3, 2] : List ℚ) = some (i, m) ∧
      neb_raw_barrier ([1, 3, 3, 2] : List ℚ) = some m ∧
      ([1, 3, 3, 2] : List ℚ).get? i = some m ∧
      (∀ x ∈ ([1, 3, 3, 2] : List ℚ), x ≤ m) ∧
      ∀ j < i, ([1, 3, 3, 2] : List ℚ).get? j ≠ some m) :=
  ⟨⟨by decide, by decide⟩, C7_TS_info_first_max [1, 3, 3, 2] (by decide)⟩

/-! ## C2: flanking-image index arithmetic -/

/-- `pyIndex` raises exactly when the index is at least the length or below
minus the length. -/
theorem pyIndex_eq_none_iff {α : Type} (l : List α) (i : ℤ) :
    pyIndex l i = none ↔ (l.length : ℤ) ≤ i ∨ i < -(l.length : ℤ) := by
  rw [pyIndex]
  by_cases h1 : i < 0
  · rw [if_pos h1]
    by_cases h2 : (l.length : ℤ) + i < 0
    · simp only [if_pos h2, true_iff]
      omega
    · rw [if_neg h2]
      simp only [List.get?_eq_none]
      omega
  · rw [if_neg h1]
    simp only [List.get?_eq_none]
    omega

/-- `pyIndex` at a non-negative index is ordinary list lookup. -/
theorem pyIndex_nonneg {α : Type} (l : List α) (i : ℤ) (h : 0 ≤ i) :
    pyIndex l i = l.get? i.toNat := by
  rw [pyIndex, if_neg (not_lt.mpr h)]

/-- `pyIndex` at a mildly negative index wraps to the other end of the
list. -/
theorem pyIndex_neg {α : Type} (l : List α) (i : ℤ) (h : i < 0)
    (h2 : -(l.length : ℤ) ≤ i) :
    pyIndex l i = l.get? ((l.length : ℤ) + i).toNat := by
  rw [pyIndex, if_pos h, if_neg (by omega)]

/-- C2 counterexample: for a 3-image chain with the transition state at
index 0 and offsets b = a = 1, the before-index `0 - 1 = -1` is negative,
yet the flanking-image selection does not fail: it silently takes the LAST
image of the chain as the before-image. -/
theorem C2_counterexample :
    ((0 : ℤ) - 1 < 0) ∧
    neb2dimer_flank [(0 : ℕ), 1, 2] 0 1 1 = some (2, 1) := by
  exact ⟨by decide, by decide⟩

/-- C2 amended: for a transition-state index `ts < n` (`n` the chain
length), the flanking-image selection fails with an index error iff
`n ≤ ts + a` or `ts - b < -n`; when `-n ≤ ts - b < 0` it does NOT fail but
silently selects the image at position `n + (ts - b)` from the other end of
the chain, and when `b ≤ ts` and `ts + a < n` it selects the images at
positions `ts - b` and `ts + a`. -/
theorem C2_flank_characterization {α : Type} (images : List α) (ts b a : ℕ)
    (hts : ts < images.length) :
    (neb2dimer_flank images ts b a = none ↔
      images.length ≤ ts + a ∨
        (ts : ℤ) - (b : ℤ) < -(images.length : ℤ)) ∧
    ((ts : ℤ) - (b : ℤ) < 0 → -(images.length : ℤ) ≤ (ts : ℤ) - (b : ℤ) →
      ts + a < images.length →
      ∃ bef aft, neb2dimer_flank images ts b a = some (bef, aft) ∧
        images.get? ((images.length : ℤ) + ((ts : ℤ) - (b : ℤ))).toNat =
          some bef ∧
        images.get? (ts + a) = some aft) ∧
    (b ≤ ts → ts + a < images.length →
      ∃ bef aft, neb2dimer_flank images ts b a = some (bef, aft) ∧
        images.get? (ts - b) = some bef ∧
        images.get? (ts + a) = some aft) := by
  have hb := pyIndex_eq_none_iff images ((ts : ℤ) - (b : ℤ))
  have ha := pyIndex_eq_none_iff images ((ts : ℤ) + (a : ℤ))
  refine ⟨?_, ?_, ?_⟩
  · rw [neb2dimer_flank]
    cases hbef : pyIndex images ((ts : ℤ) - (b : ℤ)) with
    | none =>
      rw [hbef] at hb
      simp only [true_iff] at hb
      simp only [true_iff]
      omega
    | some x =>
      rw [hbef] at hb
      simp only [iff_false, reduceCtorEq, false_iff] at hb
      cases haft : pyIndex images ((ts : ℤ) + (a : ℤ)) with
      | none =>
        rw [haft] at ha
        simp only [true_iff] at ha
        simp only [true_iff]
        omega
      | some y =>
        rw [haft] at ha
        simp only [iff_false, reduceCtorEq, false_iff] at ha
        simp only [reduceCtorEq, false_iff]
        omega
  · intro h1 h2 h3
    have hbef := pyIndex_neg images ((ts : ℤ) - (b : ℤ)) h1 h2
    have haft := pyIndex_nonneg images ((ts : ℤ) + (a : ℤ)) (by omega)
    have hj : ((images.length : ℤ) + ((ts : ℤ) - (b : ℤ))).toNat <
        images.length := by omega
    have hk : ((ts : ℤ) + (a : ℤ)).toNat = ts + a := by omega
    have hka : ts + a < images.length := h3
    refine ⟨images.get ⟨_, hj⟩, images.get ⟨ts + a, hka⟩, ?_,
      List.get?_eq_get hj, List.get?_eq_get hka⟩
    rw [neb2dimer_flank, hbef, haft, List.get?_eq_get hj, hk,
      List.get?_eq_get hka]
  · intro h1 h3
    have h0 : (0 : ℤ) ≤ (ts : ℤ) - (b : ℤ) := by omega
    have hbef := pyIndex_nonneg images ((ts : ℤ) - (b : ℤ)) h0
    have haft := pyIndex_nonneg images ((ts : ℤ) + (a : ℤ)) (by omega)
    have hj : ((ts : ℤ) - (b : ℤ)).toNat = ts - b := by omega
    have hk : ((ts : ℤ) + (a : ℤ)).toNat = ts + a := by omega
    have hjlt : ts - b < images.length := by omega
    have hka : ts + a < images.length := h3
    refine ⟨images.get ⟨ts - b, hjlt⟩, images.get ⟨ts + a, hka⟩, ?_,
      List.get?_eq_get hjlt, List.get?_eq_get hka⟩
    rw [neb2dimer_flank, hbef, haft, hj, hk, List.get?_eq_get hjlt,
      List.get?_eq_get hka]

/-- C2 witness: the characterization applied to the 3-image chain
`[10, 20, 30]` with the transition state at index 0 and offsets 1, 1. -/
theorem C2_flank_witness :
    (0 : ℕ) < ([10, 20, 30] : List ℕ).length ∧
    ((neb2dimer_flank ([10, 20, 30] : List ℕ) 0 1 1 = none ↔
        ([10, 20, 30] : List ℕ).length ≤ 0 + 1 ∨
          ((0 : ℕ) : ℤ) - ((1 : ℕ) : ℤ) <
            -((([10, 20, 30] : List ℕ).length : ℤ))) ∧
      (((0 : ℕ) : ℤ) - ((1 : ℕ) : ℤ) < 0 →
        -((([10, 20, 30] : List ℕ).length : ℤ)) ≤
          ((0 : ℕ) : ℤ) - ((1 : ℕ) : ℤ) →
        0 + 1 < ([10, 20, 30] : List ℕ).length →
        ∃ bef aft,
          neb2dimer_flank ([10, 20, 30] : List ℕ) 0 1 1 = some (bef, aft) ∧
          ([10, 20, 30] : List ℕ).get?
            (((([10, 20, 30] : List ℕ).length : ℤ) +
              (((0 : ℕ) : ℤ) - ((1 : ℕ) : ℤ))).toNat) = some bef ∧
          ([10, 20, 30] : List ℕ).get? (0 + 1) = some aft) ∧
      (1 ≤ 0 → 0 + 1 < ([10, 20, 30] : List ℕ).length →
        ∃ bef aft,
          neb2dimer_flank ([10, 20, 30] : List ℕ) 0 1 1 = some (bef, aft) ∧
          ([10, 20, 30] : List ℕ).get? (0 - 1) = some bef ∧
          ([10, 20, 30] : List ℕ).get? (0 + 1) = some aft)) :=
  ⟨by decide, C2_flank_characterization [10, 20, 30] 0 1 1 (by decide)⟩

/-! ## Norm lemmas for the real-vector part -/

theorem vnormSq_nonneg (p : R3) : 0 ≤ vnormSq p := by
  rw [vnormSq]
  positivity

theorem frobNormSq_nonneg (v : List R3) : 0 ≤ frobNormSq v := by
  rw [frobNormSq]
  apply List.sum_nonneg
  intro x hx
  obtain ⟨p, _, rfl⟩ := List.mem_map.mp hx
  exact vnormSq_nonneg p

/-- Scaling a 3-vector by `1/c` divides its squared norm by `c ^ 2`. -/
theorem vnormSq_pdiv (p : R3) (c : ℝ) :
    vnormSq (pdiv p c) = vnormSq p / c ^ 2 := by
  rcases p with ⟨x, y, z⟩
  simp only [vnormSq, pdiv, div_pow]
  ring

/-- Scaling a 3-vector by `1/c`, `0 ≤ c`, divides its norm by `c`. -/
theorem vnorm_pdiv (p : R3) (c : ℝ) (hc : 0 ≤ c) :
    vnorm (pdiv p c) = vnorm p / c := by
  rw [vnorm, vnormSq_pdiv, Real.sqrt_div (vnormSq_nonneg p),
    Real.sqrt_sq_eq_abs, abs_of_nonneg hc, vnorm]

/-- Componentwise scaling by `1/c` divides the squared Frobenius norm by
`c ^ 2`. -/
theorem frobNormSq_map_pdiv (v : List R3) (c : ℝ) :
    frobNormSq (v.map (fun p => pdiv p c)) = frobNormSq v / c ^ 2 := by
  induction v with
  | nil => simp [frobNormSq]
  | cons p t ih =>
    simp only [frobNormSq, List.map_cons, List.map_map, List.sum_cons] at ih ⊢
    rw [vnormSq_pdiv]
    rw [ih]
    ring

/-- Componentwise scaling by `1/c`, `0 ≤ c`, divides the Frobenius norm by
`c`. -/
theorem frobNorm_map_pdiv (v : List R3) (c : ℝ) (hc : 0 ≤ c) :
    frobNorm (v.map (fun p => pdiv p c)) = frobNorm v / c := by
  rw [frobNorm, frobNormSq_map_pdiv, Real.sqrt_div (frobNormSq_nonneg v),
    Real.sqrt_sq_eq_abs, abs_of_nonneg hc, frobNorm]

/-- A 3-vector has zero norm exactly when it is the zero vector. -/
theorem vnorm_eq_zero_iff (p : R3) :
    vnorm p = 0 ↔ p = ((0 : ℝ), 0, 0) := by
  rcases p with ⟨x, y, z⟩
  rw [vnorm, Real.sqrt_eq_zero']
  constructor
  · intro hle
    have h0 : vnormSq (x, y, z) = 0 :=
      le_antisymm hle (vnormSq_nonneg (x, y, z))
    simp only [vnormSq] at h0
    have hx : x = 0 := by nlinarith [sq_nonneg x, sq_nonneg y, sq_nonneg z]
    have hy : y = 0 := by nlinarith [sq_nonneg x, sq_nonneg y, sq_nonneg z]
    have hz : z = 0 := by nlinarith [sq_nonneg x, sq_nonneg y, sq_nonneg z]
    simp [hx, hy, hz]
  · intro hp
    rw [hp]
    simp [vnormSq]

/-- The squared norm of any row is at most the squared Frobenius norm. -/
theorem vnormSq_le_frobNormSq (v : List R3) (p : R3) (hp : p ∈ v) :
    vnormSq p ≤ frobNormSq v := by
  rw [frobNormSq]
  apply List.single_le_sum
  · intro x hx
    obtain ⟨q, _, rfl⟩ := List.mem_map.mp hx
    exact vnormSq_nonneg q
  · exact List.mem_map_of_mem vnormSq hp

/-! ## C6: displacement-vector rescaling -/

/-- C6: for flanking images with a non-zero position difference, the derived
displacement vector is the position difference (before minus after) rescaled
by a positive factor, and its global Frobenius norm equals the target
magnitude `norm_vector = 0.01`. -/
theorem C6_displacement_vector_norm (before after : List R3)
    (h : 0 < frobNormSq (image_vector before after)) :
    frobNorm (displacement_vector (image_vector before after)) =
      norm_vector ∧
    ∃ c : ℝ, 0 < c ∧
      displacement_vector (image_vector before after) =
        (image_vector before after).map (fun p => pdiv p c) := by
  set iv := image_vector before after with hiv
  have hN : 0 < frobNorm iv := Real.sqrt_pos.mpr h
  have hc : 0 < frobNorm iv / norm_vector := by
    apply div_pos hN
    rw [norm_vector]
    norm_num
  constructor
  · rw [displacement_vector, frobNorm_map_pdiv iv _ (le_of_lt hc),
      div_div_eq_mul_div, mul_comm, mul_div_assoc,
      div_self (ne_of_gt hN), mul_one]
  · exact ⟨frobNorm iv / norm_vector, hc, rfl⟩

/-- C6 witness: the theorem applied to a one-atom pair of flanking images
whose position difference is `(3, 4, 0)` (Frobenius norm 5). -/
theorem C6_displacement_vector_witness :
    0 < frobNormSq (image_vector [((3 : ℝ), 4, 0)] [((0 : ℝ), 0, 0)]) ∧
    (frobNorm (displacement_vector
        (image_vector [((3 : ℝ), 4, 0)] [((0 : ℝ), 0, 0)])) = norm_vector ∧
      ∃ c : ℝ, 0 < c ∧
        displacement_vector
            (image_vector [((3 : ℝ), 4, 0)] [((0 : ℝ), 0, 0)]) =
          (image_vector [((3 : ℝ), 4, 0)] [((0 : ℝ), 0, 0)]).map
            (fun p => pdiv p c)) := by
  have h : 0 < frobNormSq (image_vector [((3 : ℝ), 4, 0)] [((0 : ℝ), 0, 0)]) := by
    norm_num [image_vector, psub, frobNormSq, vnormSq]
  exact ⟨h, C6_displacement_vector_norm [((3 : ℝ), 4, 0)] [((0 : ℝ), 0, 0)] h⟩

/-! ## C5: main-mode selector -/

theorem frobNorm_nonneg (v : List R3) : 0 ≤ frobNorm v :=
  Real.sqrt_nonneg (frobNormSq v)

/-- Membership in the selected index set of `main4dis`: index `i` is
selected exactly when atom `i` exists and its norm, divided by the global
Frobenius norm, strictly exceeds the threshold. -/
theorem main4dis_mem_iff (v : List R3) (thr : ℝ) (i : ℕ) :
    i ∈ main4dis v thr ↔
      ∃ p, v.get? i = some p ∧ thr < vnorm p / frobNorm v := by
  rw [main4dis, Set.mem_setOf_eq, main4dis_norms]
  constructor
  · rintro ⟨x, hx, hthr⟩
    rw [List.get?_map] at hx
    obtain ⟨p, hp, hfp⟩ := Option.map_eq_some'.mp hx
    refine ⟨p, hp, ?_⟩
    rw [← hfp, vnorm_pdiv p (frobNorm v) (frobNorm_nonneg v)] at hthr
    exact hthr
  · rintro ⟨p, hp, hthr⟩
    refine ⟨vnorm p / frobNorm v, ?_, hthr⟩
    rw [List.get?_map, hp]
    simp [vnorm_pdiv p (frobNorm v) (frobNorm_nonneg v)]

/-- C5 counterexample: for the two-atom displacement field
`[(0,0,0), (1,0,0)]` — which has non-zero overall norm — atom 0 is selected
at NO positive threshold, so the selector does not return all indices as the
threshold approaches 0. -/
theorem C5_counterexample :
    ¬ ∃ thr : ℝ, 0 < thr ∧
      0 ∈ main4dis [((0 : ℝ), 0, 0), ((1 : ℝ), 0, 0)] thr := by
  rintro ⟨thr, hthr, hmem⟩
  rw [main4dis_mem_iff] at hmem
  obtain ⟨p, hp, hcomp⟩ := hmem
  have hp0 : p = ((0 : ℝ), 0, 0) := by
    simpa using hp.symm
  rw [hp0, vnorm] at hcomp
  simp only [vnormSq] at hcomp
  norm_num [Real.sqrt_zero] at hcomp
  linarith

/-- C5 amended: for every displacement field with non-zero overall norm,
`main4dis` selects exactly the indices whose per-atom norm divided by the
global norm strictly exceeds the threshold; every threshold at least 1
selects nothing; and the union of the selections over all positive
thresholds is exactly the set of indices of atoms with non-zero
displacement entry (so the selection tends, as the threshold approaches 0,
to the non-zero-entry indices, not to all indices). -/
theorem C5_main4dis_characterization (v : List R3) (thr : ℝ)
    (h : 0 < frobNormSq v) :
    (∀ i, i ∈ main4dis v thr ↔
      ∃ p, v.get? i = some p ∧ thr < vnorm p / frobNorm v) ∧
    (1 ≤ thr → main4dis v thr = ∅) ∧
    {i | ∃ t : ℝ, 0 < t ∧ i ∈ main4dis v t} =
      {i | ∃ p, v.get? i = some p ∧ p ≠ ((0 : ℝ), 0, 0)} := by
  have hL : 0 < frobNorm v := Real.sqrt_pos.mpr h
  refine ⟨fun i => main4dis_mem_iff v thr i, ?_, ?_⟩
  · intro hthr
    ext i
    simp only [Set.mem_empty_iff_false, iff_false]
    rw [main4dis_mem_iff]
    rintro ⟨p, hp, hcomp⟩
    have hmem : p ∈ v := List.get?_mem hp
    have h2 : vnorm p ≤ frobNorm v :=
      Real.sqrt_le_sqrt (vnormSq_le_frobNormSq v p hmem)
    have h3 : vnorm p / frobNorm v ≤ 1 := (div_le_one hL).mpr h2
    linarith
  · ext i
    simp only [Set.mem_setOf_eq]
    constructor
    · rintro ⟨t, ht, hmem⟩
      rw [main4dis_mem_iff] at hmem
      obtain ⟨p, hp, hcomp⟩ := hmem
      refine ⟨p, hp, ?_⟩
      intro hzero
      rw [hzero, vnorm] at hcomp
      simp only [vnormSq] at hcomp
      norm_num [Real.sqrt_zero] at hcomp
      linarith
    · rintro ⟨p, hp, hpz⟩
      have hv : 0 < vnorm p := by
        rcases lt_or_eq_of_le (Real.sqrt_nonneg (vnormSq p)) with hlt | heq
        · exact hlt
        · exact absurd ((vnorm_eq_zero_iff p).mp heq.symm) hpz
      have hratio : 0 < vnorm p / frobNorm v := div_pos hv hL
      refine ⟨vnorm p / frobNorm v / 2, by positivity, ?_⟩
      rw [main4dis_mem_iff]
      exact ⟨p, hp, by linarith⟩

/-- C5 witness: the amended characterization applied to the one-atom field
`[(3, 4, 0)]` and threshold `1/2`. -/
theorem C5_main4dis_witness :
    0 < frobNormSq [((3 : ℝ), 4, 0)] ∧
    ((∀ i, i ∈ main4dis [((3 : ℝ), 4, 0)] (1 / 2) ↔
        ∃ p, ([((3 : ℝ), 4, 0)] : List R3).get? i = some p ∧
          (1 / 2 : ℝ) < vnorm p / frobNorm [((3 : ℝ), 4, 0)]) ∧
      ((1 : ℝ) ≤ 1 / 2 → main4dis [((3 : ℝ), 4, 0)] (1 / 2) = ∅) ∧
      {i | ∃ t : ℝ, 0 < t ∧ i ∈ main4dis [((3 : ℝ), 4, 0)] t} =
        {i | ∃ p, ([((3 : ℝ), 4, 0)] : List R3).get? i = some p ∧
          p ≠ ((0 : ℝ), 0, 0)}) := by
  have h : 0 < frobNormSq [((3 : ℝ), 4, 0)] := by
    norm_num [frobNormSq, vnormSq]
  exact ⟨h, C5_main4dis_characterization [((3 : ℝ), 4, 0)] (1 / 2) h⟩
